import Mathlib

/-!
Verification development for the document-conversion pipeline of the
`InvestorX/document` repository.

The embedding covers four pieces of the repository, each translated from the
TypeScript source:

* `sanitizeChars` / `sanitizeFileName` — `X2TConverter.sanitizeFileName`
  (src/unnamed/part_001, lines 118-141);
* the engine-initialization state machine `initStep` / `runInit` —
  `X2TConverter.initialize` / `doInitialize` (src/unnamed/part_001, lines 40-88);
* the conversion pipeline `convertDocument` with an explicit effect log —
  `X2TConverter.convertDocument` and its helpers (src/unnamed/part_001,
  lines 107-113, 146-183, 188-292, 297-389);
* the editor-lifecycle queue semantics `qstep` / `runQueue` —
  `queueEditorOperation` (src/lib/converter.ts, lines 52-94) and the
  settling-delay computation of `createEditorInstance`
  (src/lib/converter.ts, lines 106-143).

JavaScript strings are modelled as `List Char` (code points; all inputs in the
claims are in the basic plane, so the UTF-16/code-point distinction is moot),
and the asynchronous parts are modelled as explicit event-trace machines:
each event corresponds to one atomic continuation of the single-threaded
JavaScript event loop.
-/

namespace X2T

/-! ## JavaScript string primitives used by sanitizeFileName -/

/-- Characters treated as whitespace by JavaScript `String.prototype.trim`
(WhiteSpace and LineTerminator code points). -/
def jsWhitespace (c : Char) : Bool :=
  let n := c.toNat
  (9 ≤ n && n ≤ 13) || n = 32 || n = 160 || n = 5760 || (8192 ≤ n && n ≤ 8202) ||
    n = 8232 || n = 8233 || n = 8239 || n = 8287 || n = 12288 || n = 65279

/-- JavaScript `trim`: drop leading and trailing whitespace. -/
def jsTrimChars (l : List Char) : List Char :=
  ((l.dropWhile jsWhitespace).reverse.dropWhile jsWhitespace).reverse

/-- JavaScript `input.split('.')`: split on every dot, keeping empty segments.
`splitOnDot [] = [[]]` matches `"".split('.') == [""]`. -/
def splitOnDot : List Char → List (List Char)
  | [] => [[]]
  | c :: cs =>
    if c = '.' then [] :: splitOnDot cs
    else
      match splitOnDot cs with
      | [] => [[c]]
      | s :: ss => (c :: s) :: ss

/-- JavaScript `parts.join('.')`. -/
def joinDot : List (List Char) → List Char
  | [] => []
  | [s] => s
  | s :: ss => s ++ '.' :: joinDot ss

/-- The `illegalChars` regex of `sanitizeFileName`: `[/?<>\\:*|"]`. -/
def illegalChar (c : Char) : Bool :=
  c = '/' || c = '?' || c = '<' || c = '>' || c.toNat = 92 || c = ':' ||
    c = '*' || c = '|' || c.toNat = 34

/-- The `controlChars` regex of `sanitizeFileName`: `[\x00-\x1f\x80-\x9f]`. -/
def controlChar (c : Char) : Bool :=
  c.toNat ≤ 31 || (128 ≤ c.toNat && c.toNat ≤ 159)

/-- The `unsafeChars` regex of `sanitizeFileName`: ampersand, apostrophe,
percent, exclamation mark, double quote, braces and square brackets. -/
def unsafeChar (c : Char) : Bool :=
  c = '&' || c.toNat = 39 || c = '%' || c = '!' || c.toNat = 34 ||
    c.toNat = 123 || c.toNat = 125 || c = '[' || c = ']'

def isDot (c : Char) : Bool := c = '.'

/-- `name.replace(illegalChars, '').replace(controlChars, '')`. -/
def afterFilters (name : List Char) : List Char :=
  (name.filter (fun c => !(illegalChar c))).filter (fun c => !(controlChar c))

/-- `.replace(reservedPattern, '')` with `reservedPattern = /^\.+$/`: erase the
name when it consists solely of dots (and is nonempty). -/
def afterReserved (name : List Char) : List Char :=
  if afterFilters name ≠ [] ∧ (afterFilters name).all isDot then []
  else afterFilters name

/-- `.replace(unsafeChars, '')`. -/
def afterUnsafe (name : List Char) : List Char :=
  (afterReserved name).filter (fun c => !(unsafeChar c))

/-- The cleaning chain `sanitizeFileName` applies to the base name (the part
before the last dot): remove illegal characters, remove control characters,
erase the name if it consists solely of dots (`/^\.+$/`), remove unsafe
characters, trim, and fall back to `"file"` when the result is empty
(`sanitized.trim() || 'file'`). -/
def baseClean (name : List Char) : List Char :=
  if jsTrimChars (afterUnsafe name) = [] then ['f', 'i', 'l', 'e']
  else jsTrimChars (afterUnsafe name)

/-- `parts.pop() || 'bin'`: the extension is the last dot-separated segment,
replaced by `"bin"` when that segment is empty. -/
def extOfParts (parts : List (List Char)) : List Char :=
  let e := parts.getLastD []
  if e = [] then ['b', 'i', 'n'] else e

/-- `X2TConverter.sanitizeFileName` on the character-list model: empty or
all-whitespace input yields `"file.bin"`; otherwise the base name is cleaned
by `baseClean`, truncated to 200 characters, and the (unfiltered) extension is
re-appended. -/
def sanitizeChars (input : List Char) : List Char :=
  if jsTrimChars input = [] then ['f', 'i', 'l', 'e', '.', 'b', 'i', 'n']
  else
    let parts := splitOnDot input
    (baseClean (joinDot parts.dropLast)).take 200 ++ '.' :: extOfParts parts

/-- String-level wrapper of `sanitizeChars`. -/
def sanitizeFileName (s : String) : String := ⟨sanitizeChars s.data⟩

/-- The base-name part of a sanitized output: everything before the last dot. -/
def sanitizedBase (x : List Char) : List Char :=
  joinDot ((splitOnDot (sanitizeChars x)).dropLast)

/-- The extension part of a sanitized output: the segment after the last dot. -/
def sanitizedExt (x : List Char) : List Char :=
  (splitOnDot (sanitizeChars x)).getLastD []

/-! ## Document types and the conversion pipeline

`src/lib/document-utils.ts` (which owns `DOCUMENT_TYPE_MAP` and `BASE_PATH`)
is not among the provided sources; only its importers are. The mapping below
is therefore modelled from the spec. Everything else in this section is
translated from `X2TConverter` in src/unnamed/part_001.
-/

/-- The closed set of document types (src/lib/document-types.ts, line 23). -/
inductive DocumentType
  | word
  | cell
  | slide
  deriving DecidableEq

/-- Modelled from the spec: `DOCUMENT_TYPE_MAP` lives in
src/lib/document-utils.ts, which is missing from the sources. The spec fixes a
closed extension-to-type map covering word-processing, spreadsheet and
presentation formats plus CSV, with `docx ↦ word`, `csv ↦ cell` (a CSV
conversion returns `type == cell`) and `pptx`/`ppt` presentation files. -/
def DOCUMENT_TYPE_MAP : List (String × DocumentType) :=
  [("doc", .word), ("docx", .word), ("xls", .cell), ("xlsx", .cell),
   ("csv", .cell), ("ppt", .slide), ("pptx", .slide)]

/-- JavaScript `toLowerCase` (character-wise lowering suffices here). -/
def jsToLower (s : String) : String := ⟨s.data.map Char.toLower⟩

/-- Error values of the conversion pipeline, one constructor per `throw` site,
plus the wrapper constructors corresponding to the `catch` blocks that re-wrap
messages (`Document conversion failed: ...`, `Failed to convert CSV file: ...`,
`Failed to convert CSV to XLSX: ...`). -/
inductive ConvErr
  | initFailure
  | unsupportedFormat (extension : String)
  | csvEmpty
  | xlsxLibLoadFailed
  | xlsxParseWriteFailed
  | conversionFailed (code : Int)
  | csvToXlsxFailed (inner : ConvErr)
  | csvFileFailed (inner : ConvErr)
  | docConvFailed (inner : ConvErr)
  deriving DecidableEq

/-- Observable interactions of `convertDocument` with the engine, the virtual
filesystem and the fallback spreadsheet library, in chronological order. -/
inductive Effect
  | initEngine
  | loadXlsxLib
  | fsWrite (path : String)
  | engineInvoke (paramsPath : String)
  | fsRead (path : String)
  | fsReaddir (path : String)
  deriving DecidableEq

/-- A browser `File` as `convertDocument` consumes it: its name, the
extension list the external `getExtensions` utility derives from its MIME type
(an oracle for the out-of-scope `ranuts/utils` helper), and its bytes. -/
structure X2TFile where
  name : String
  mimeExts : List String
  bytes : List Nat
  deriving DecidableEq

/-- Oracle for the engine-side collaborators of one `convertDocument` run:
whether `initialize()` resolves, whether the fallback xlsx library loads and
parses/serializes, the buffer `XLSX.write` produces, the return code of the
engine entry point, the bytes of the conversion output, and the contents of
the media directory. -/
structure EngineEnv where
  initOk : Bool
  xlsxLibOk : Bool
  xlsxParseOk : Bool
  xlsxOut : List Nat → List Nat
  invokeRet : Int
  outputBin : List Nat
  mediaDirOk : Bool
  mediaFiles : List String
  mediaReadOk : String → Bool
  mediaUrl : String → String

/-- `ConversionResult` (src/lib/document-types.ts, lines 16-21); `media` is the
key-to-object-URL mapping as an association list. -/
structure ConversionResult where
  fileName : String
  type : DocumentType
  bin : List Nat
  media : List (String × String)
  deriving DecidableEq

deriving instance DecidableEq for Except

/-- `fileExt` detection in `convertDocument` (line 301):
`getExtensions(file?.type)[0] || fileName.split('.').pop() || ''`. -/
def detectedExtension (file : X2TFile) : String :=
  let fromMime := file.mimeExts.headD ""
  if fromMime ≠ "" then fromMime
  else ⟨(splitOnDot file.name.data).getLastD []⟩

/-- `X2TConverter.getDocumentType` (lines 107-113): look the lowered extension
up in the map and fail with the unsupported-format error otherwise. -/
def getDocumentType (extension : String) : Except ConvErr DocumentType :=
  match List.lookup (jsToLower extension) DOCUMENT_TYPE_MAP with
  | some d => .ok d
  | none => .error (.unsupportedFormat extension)

/-- `X2TConverter.createConversionParams` (lines 174-183). -/
def createConversionParams (fromPath toPath additionalParams : String) : String :=
  "<?xml version=\"1.0\" encoding=\"utf-8\"?>\n" ++
  "<TaskQueueDataConvert xmlns:xsi=\"http://www.w3.org/2001/XMLSchema-instance\" xmlns:xsd=\"http://www.w3.org/2001/XMLSchema\">\n" ++
  "  <m_sFileFrom>" ++ fromPath ++ "</m_sFileFrom>\n" ++
  "  <m_sThemeDir>/working/themes</m_sThemeDir>\n" ++
  "  <m_sFileTo>" ++ toPath ++ "</m_sFileTo>\n" ++
  "  <m_bIsNoBase64>false</m_bIsNoBase64>\n" ++
  "  " ++ additionalParams ++ "\n" ++
  "</TaskQueueDataConvert>"

/-- UTF-8 byte-order-mark stripping in `convertCsvToXlsx` (lines 263-266). -/
def stripBom (csvData : List Nat) : List Nat :=
  match csvData with
  | 0xef :: 0xbb :: 0xbf :: rest => rest
  | l => l

/-- `fileName.replace(/\.csv$/i, '.xlsx')` (line 282): replace a
case-insensitive `.csv` suffix by `.xlsx`. -/
def replaceCsvExt (fileName : String) : String :=
  let cs := fileName.data
  if 4 ≤ cs.length ∧ (cs.drop (cs.length - 4)).map Char.toLower = ['.', 'c', 's', 'v'] then
    ⟨cs.take (cs.length - 4) ++ ['.', 'x', 'l', 's', 'x']⟩
  else fileName

/-- `X2TConverter.convertCsvToXlsx` (lines 257-292): load the fallback xlsx
library, strip the BOM, and obtain the renamed `.xlsx` file whose buffer the
library produces. The text decode and the library's parse/serialize are
oracle calls; any failure is wrapped by the `Failed to convert CSV to XLSX`
catch. Returns the produced file's name and bytes plus the effect log. -/
def convertCsvToXlsx (env : EngineEnv) (csvData : List Nat) (fileName : String) :
    Except ConvErr (String × List Nat) × List Effect :=
  if env.xlsxLibOk = false then
    (.error (.csvToXlsxFailed .xlsxLibLoadFailed), [.loadXlsxLib])
  else
    let csvBody := stripBom csvData
    if env.xlsxParseOk = false then
      (.error (.csvToXlsxFailed .xlsxParseWriteFailed), [.loadXlsxLib])
    else
      (.ok (replaceCsvExt fileName, env.xlsxOut csvBody), [.loadXlsxLib])

/-- `X2TConverter.readMediaFiles` (lines 188-225): list `/working/media/`
(failure yields the empty mapping), drop the `.`/`..` pseudo-entries, read
each file (per-file failures are skipped) and pair `media/<name>` keys with
object URLs. -/
def readMediaFiles (env : EngineEnv) : List (String × String) × List Effect :=
  if env.mediaDirOk = false then ([], [.fsReaddir "/working/media/"])
  else
    let files := env.mediaFiles.filter (fun f => f != "." && f != "..")
    (files.filterMap (fun f =>
        if env.mediaReadOk f then some ("media/" ++ f, env.mediaUrl f) else none),
      .fsReaddir "/working/media/" :: files.map (fun f => .fsRead ("/working/media/" ++ f)))

/-- `X2TConverter.convertDocument` (lines 297-389) with an explicit effect
log. `await this.initialize()` comes first (its failure escapes unwrapped, as
does the unsupported-format throw); everything inside the `try` block is
wrapped by the `Document conversion failed` catch; a CSV request converts to
XLSX first (errors additionally wrapped by the `Failed to convert CSV file`
catch) and the final result carries the sanitized *original* name, while the
non-CSV branch uses the sanitized name directly. A failed engine invocation
additionally reads the params file back for diagnostics before throwing. -/
def convertDocument (env : EngineEnv) (file : X2TFile) :
    Except ConvErr ConversionResult × List Effect :=
  if env.initOk = false then (.error .initFailure, [.initEngine])
  else
    let fileName := file.name
    let fileExt := detectedExtension file
    match getDocumentType fileExt with
    | .error e => (.error e, [.initEngine])
    | .ok documentType =>
      let data := file.bytes
      if jsToLower fileExt = "csv" then
        if data.length = 0 then
          (.error (.docConvFailed .csvEmpty), [.initEngine])
        else
          match convertCsvToXlsx env data fileName with
          | (.error e, csvEffs) =>
            (.error (.docConvFailed (.csvFileFailed e)), .initEngine :: csvEffs)
          | (.ok (xlsxName, _xlsxData), csvEffs) =>
            let sanitizedName := sanitizeFileName xlsxName
            let inputPath := "/working/" ++ sanitizedName
            let outputPath := inputPath ++ ".bin"
            let effs := .initEngine :: csvEffs ++
              [.fsWrite inputPath, .fsWrite "/working/params.xml",
               .engineInvoke "/working/params.xml"]
            if env.invokeRet ≠ 0 then
              (.error (.docConvFailed (.csvFileFailed (.conversionFailed env.invokeRet))),
                effs ++ [.fsRead "/working/params.xml"])
            else
              let m := readMediaFiles env
              (.ok { fileName := sanitizeFileName fileName, type := documentType,
                     bin := env.outputBin, media := m.1 },
                effs ++ .fsRead outputPath :: m.2)
      else
        let sanitizedName := sanitizeFileName fileName
        let inputPath := "/working/" ++ sanitizedName
        let outputPath := inputPath ++ ".bin"
        let effs := [Effect.initEngine, .fsWrite inputPath,
          .fsWrite "/working/params.xml", .engineInvoke "/working/params.xml"]
        if env.invokeRet ≠ 0 then
          (.error (.docConvFailed (.conversionFailed env.invokeRet)),
            effs ++ [.fsRead "/working/params.xml"])
        else
          let m := readMediaFiles env
          (.ok { fileName := sanitizedName, type := documentType,
                 bin := env.outputBin, media := m.1 },
            effs ++ .fsRead outputPath :: m.2)

/-- A fully cooperative environment: initialization succeeds, the fallback
library works, the engine returns 0 and produces `[9]`, and the media
directory is empty. -/
def envAllOk : EngineEnv where
  initOk := true
  xlsxLibOk := true
  xlsxParseOk := true
  xlsxOut := fun _ => [1, 2]
  invokeRet := 0
  outputBin := [9]
  mediaDirOk := true
  mediaFiles := []
  mediaReadOk := fun _ => true
  mediaUrl := fun f => "blob:" ++ f

/-! ## Engine initialization (`initialize` / `doInitialize`)

The asynchronous bootstrap is modelled as an event-trace machine. Each event
is one atomic continuation on the JavaScript event loop:

* `call` — one `initialize()` invocation (its synchronous body runs to the
  point where it returns a promise or the cached module);
* `scriptOk h` — the awaited `scriptOnLoad` resolved and `window.Module` was
  found to be the module object `h`; the init timer is now armed;
* `scriptFail` — `scriptOnLoad` rejected: `loadScript` throws, the `catch` in
  `doInitialize` clears `initPromise` and re-throws;
* `moduleMissing` — the script loaded but `window.Module` was absent: the
  promise *returned* from the `try` block rejects. Because `doInitialize`
  returns the promise without awaiting it, this rejection bypasses the
  `catch`, so `initPromise` is NOT cleared;
* `runtimeReady` — `onRuntimeInitialized` fired: directories are created, the
  module is cached, `isReady` is set and the promise is resolved (a promise
  already settled by the timeout stays settled);
* `timeoutFire` — the `setTimeout` handler ran with `isReady` still false:
  the returned promise rejects with the timeout error. As with
  `moduleMissing`, the rejection bypasses the `catch` and `initPromise`
  survives.

Promises are identified by the index of the bootstrap that created them;
`bootstrapCount` counts `doInitialize` invocations (each performing one script
load and one runtime-ready wait). -/

/-- Settlement state of one `doInitialize` promise. -/
inductive PromiseStatus
  | pending
  | resolvedWith (handle : Nat)
  | rejectedWith (msg : String)
  deriving DecidableEq

/-- Where the in-flight bootstrap currently is, if any. -/
inductive InitPhase
  | idle
  | loadingScript (pid : Nat)
  | awaitingRuntime (pid : Nat) (moduleHandle : Nat)
  deriving DecidableEq

/-- The fields of `X2TConverter` relevant to initialization, plus the promise
registry and the bootstrap phase/counter. -/
structure InitState where
  isReady : Bool
  x2tModule : Option Nat
  initPromise : Option Nat
  hasScriptLoaded : Bool
  bootstrapCount : Nat
  promStatus : List PromiseStatus
  phase : InitPhase
  deriving DecidableEq

/-- The state of a freshly constructed `X2TConverter`. -/
def initState : InitState := ⟨false, none, none, false, 0, [], .idle⟩

/-- What one `initialize()` call hands its caller: the cached module or a
(possibly already settled) bootstrap promise. -/
inductive CallResult
  | cachedHandle (handle : Nat)
  | promise (pid : Nat)
  deriving DecidableEq

inductive InitEvent
  | call
  | scriptOk (moduleHandle : Nat)
  | scriptFail
  | moduleMissing
  | runtimeReady
  | timeoutFire
  deriving DecidableEq

/-- `this.INIT_TIMEOUT` (line 17). -/
def INIT_TIMEOUT : Nat := 300000

/-- The message of the timeout rejection,
`X2T initialization timeout after ${this.INIT_TIMEOUT}ms` at 300000. -/
def initTimeoutMessage : String := "X2T initialization timeout after 300000ms"

/-- Settle a promise; settling an already settled promise is a no-op, as in
JavaScript. -/
def settleProm (l : List PromiseStatus) (i : Nat) (st : PromiseStatus) :
    List PromiseStatus :=
  match l[i]? with
  | some .pending => l.set i st
  | _ => l

/-- `X2TConverter.initialize` (lines 40-52): return the cached module when
ready, join the pending bootstrap when one is in flight, and otherwise start
`doInitialize`, storing its promise in `initPromise`. -/
def initCall (s : InitState) : InitState × CallResult :=
  match s.isReady, s.x2tModule with
  | true, some h => (s, .cachedHandle h)
  | _, _ =>
    match s.initPromise with
    | some p => (s, .promise p)
    | none =>
      let pid := s.bootstrapCount
      ({ s with initPromise := some pid, bootstrapCount := pid + 1,
                promStatus := s.promStatus ++ [.pending],
                phase := .loadingScript pid }, .promise pid)

/-- One event-loop step of the initialization machine. Events that are not
enabled in the current phase leave the state unchanged. -/
def initStep (s : InitState) : InitEvent → InitState × Option CallResult
  | .call => let r := initCall s; (r.1, some r.2)
  | .scriptOk h =>
    match s.phase with
    | .loadingScript pid =>
      ({ s with hasScriptLoaded := true, phase := .awaitingRuntime pid h }, none)
    | _ => (s, none)
  | .scriptFail =>
    match s.phase with
    | .loadingScript pid =>
      ({ s with promStatus := settleProm s.promStatus pid
                  (.rejectedWith "Failed to load X2T WASM script"),
                initPromise := none, phase := .idle }, none)
    | _ => (s, none)
  | .moduleMissing =>
    match s.phase with
    | .loadingScript pid =>
      ({ s with hasScriptLoaded := true,
                promStatus := settleProm s.promStatus pid
                  (.rejectedWith "X2T module not found after script loading"),
                phase := .idle }, none)
    | _ => (s, none)
  | .runtimeReady =>
    match s.phase with
    | .awaitingRuntime pid h =>
      ({ s with x2tModule := some h, isReady := true,
                promStatus := settleProm s.promStatus pid (.resolvedWith h),
                phase := .idle }, none)
    | _ => (s, none)
  | .timeoutFire =>
    match s.phase with
    | .awaitingRuntime pid _ =>
      if s.isReady then (s, none)
      else
        let st := settleProm s.promStatus pid (.rejectedWith initTimeoutMessage)
        ({ s with promStatus := st }, none)
    | _ => (s, none)

/-- Run a trace of initialization events, collecting the results handed to
`initialize()` callers in order. -/
def runInit (s : InitState) : List InitEvent → InitState × List CallResult
  | [] => (s, [])
  | e :: es =>
    let r := initStep s e
    let rest := runInit r.1 es
    (rest.1, r.2.toList ++ rest.2)

/-- The settlement state of promise `i` in `s` (pending when unknown). -/
def promStatusOf (s : InitState) (i : Nat) : PromiseStatus :=
  s.promStatus.getD i .pending

/-! ## Editor lifecycle: settling delays of `createEditorInstance`

`createEditorInstance` (src/lib/converter.ts, lines 106-143) computes
`destroyDelay` (inside the teardown branch) and `cleanupDelay` (before
construction) by the same expression
`hasExistingEditor && isPresentation ? 400 : hasExistingEditor ? 250 : 150`,
where `isPresentation` tests the *requested* `fileType` of the incoming
configuration. The code never consults the type of the session currently in
`window.editor`; the `LiveSession` record below carries that type as ghost
information (the file type the live session was created with) precisely so
that its irrelevance can be stated. -/

/-- `const isPresentation = fileType === 'pptx' || fileType === 'ppt'`. -/
def isPresentationFileType (fileType : String) : Bool :=
  fileType = "pptx" || fileType = "ppt"

/-- The delay tier expression (lines 119 and 142). -/
def editorSettleDelay (hasExistingEditor isPresentation : Bool) : Nat :=
  if hasExistingEditor && isPresentation then 400
  else if hasExistingEditor then 250 else 150

/-- Ghost record of the live viewer session: the file type it was created
with. The source keeps only `window.editor` itself and never records or reads
this type. -/
structure LiveSession where
  fileType : String
  deriving DecidableEq

/-- The settling delays one `createEditorInstance` call awaits, in order: the
post-destroy delay (only when a previous editor exists) followed by the
pre-construction cleanup delay. Both use `editorSettleDelay` applied to the
*incoming* request's file type. -/
def createEditorDelays (live : Option LiveSession) (fileType : String) : List Nat :=
  let hasExistingEditor := live.isSome
  let isPresentation := isPresentationFileType fileType
  (if hasExistingEditor then [editorSettleDelay hasExistingEditor isPresentation] else [])
    ++ [editorSettleDelay hasExistingEditor isPresentation]

/-! ## The editor operation queue (`queueEditorOperation`)

`queueEditorOperation` keeps a module-level `editorOperationQueue` promise.
Each call synchronously snapshots that promise, awaits
`Promise.race([snapshot, 30s timeout])`, then — only after that wait wins —
creates its own `operationPromise`, installs it as the new queue tail, runs
the operation, and settles its promise with the operation's outcome. A
rejection of the snapshot is re-thrown (only the timeout error is swallowed),
so the call aborts before running its operation or installing a promise.

The model: operation `i` (indices are submission order) owns promise id
`i + 1`; promise id `0` is the initial `Promise.resolve()`. `waitsOn` is the
snapshot taken at enqueue time. Events are atomic event-loop continuations:

* `enqueue i` — the synchronous prefix of call `i`: snapshot the tail;
* `resume i` — the awaited race resolved (the snapshot promise resolved):
  install promise `i + 1` as the tail and start the operation;
* `resumeTimeout i` — the 30s timer won the race: same effects, after the
  warning (the claims under consideration exclude these events);
* `abort i` — the snapshot promise rejected: the race rejects, the `catch`
  re-throws, the call fails with the *predecessor's* error, never running its
  operation nor touching the tail;
* `finishOk i` / `finishErr i` — the operation settled, settling promise
  `i + 1` the same way. -/

inductive OpPhase
  | notEnqueued
  | waiting
  | running
  | doneOk
  | doneErr
  | abortedPrev
  deriving DecidableEq

/-- Per-operation bookkeeping: the tail snapshot taken at enqueue time and the
phase. -/
structure QOp where
  waitsOn : Option Nat
  phase : OpPhase
  deriving DecidableEq

/-- Queue-machine state: the id of the promise currently stored in
`editorOperationQueue`, and the operations (indexed by submission order). -/
structure QState where
  tail : Nat
  ops : List QOp
  deriving DecidableEq

/-- Initial state with `opCount` operations yet to be submitted; the module
initializes `editorOperationQueue = Promise.resolve()` (promise id 0). -/
def qInit (opCount : Nat) : QState :=
  ⟨0, List.replicate opCount ⟨none, .notEnqueued⟩⟩

def phaseAt (ops : List QOp) (i : Nat) : OpPhase :=
  match ops[i]? with
  | some op => op.phase
  | none => .notEnqueued

def phaseOf (s : QState) (i : Nat) : OpPhase := phaseAt s.ops i

def waitsAt (ops : List QOp) (i : Nat) : Option Nat :=
  match ops[i]? with
  | some op => op.waitsOn
  | none => none

def waitsOnOf (s : QState) (i : Nat) : Option Nat := waitsAt s.ops i

/-- Promise `pid` is resolved: id 0 is the initial resolved promise, and
promise `w + 1` resolves when operation `w` finished successfully. -/
def resolvedB (s : QState) : Option Nat → Bool
  | none => false
  | some 0 => true
  | some (w + 1) => phaseOf s w = .doneOk

/-- Promise `pid` is rejected: promise `w + 1` rejects when operation `w`
failed. -/
def rejectedB (s : QState) : Option Nat → Bool
  | none => false
  | some 0 => false
  | some (w + 1) => phaseOf s w = .doneErr

/-- Whether every operation of smaller index has already been submitted
(indices denote submission order). -/
def allEnqueuedBelow (s : QState) (i : Nat) : Bool :=
  (List.range i).all (fun j => phaseOf s j ≠ .notEnqueued)

inductive QEvent
  | enqueue (i : Nat)
  | resume (i : Nat)
  | resumeTimeout (i : Nat)
  | abort (i : Nat)
  | finishOk (i : Nat)
  | finishErr (i : Nat)
  deriving DecidableEq

/-- One event-loop step of the queue machine; `none` when the event is not
enabled in `s`. -/
def qstep (s : QState) : QEvent → Option QState
  | .enqueue i =>
    match s.ops[i]? with
    | some op =>
      if op.phase = .notEnqueued ∧ allEnqueuedBelow s i then
        some { s with ops := s.ops.set i ⟨some s.tail, .waiting⟩ }
      else none
    | none => none
  | .resume i =>
    match s.ops[i]? with
    | some op =>
      if op.phase = .waiting ∧ resolvedB s op.waitsOn then
        some { tail := i + 1, ops := s.ops.set i { op with phase := .running } }
      else none
    | none => none
  | .resumeTimeout i =>
    match s.ops[i]? with
    | some op =>
      if op.phase = .waiting then
        some { tail := i + 1, ops := s.ops.set i { op with phase := .running } }
      else none
    | none => none
  | .abort i =>
    match s.ops[i]? with
    | some op =>
      if op.phase = .waiting ∧ rejectedB s op.waitsOn then
        some { s with ops := s.ops.set i { op with phase := .abortedPrev } }
      else none
    | none => none
  | .finishOk i =>
    match s.ops[i]? with
    | some op =>
      if op.phase = .running then
        some { s with ops := s.ops.set i { op with phase := .doneOk } }
      else none
    | none => none
  | .finishErr i =>
    match s.ops[i]? with
    | some op =>
      if op.phase = .running then
        some { s with ops := s.ops.set i { op with phase := .doneErr } }
      else none
    | none => none

/-- Run a trace of queue events; `none` as soon as an event is not enabled. -/
def runQueue (s : QState) : List QEvent → Option QState
  | [] => some s
  | e :: es =>
    match qstep s e with
    | some s1 => runQueue s1 es
    | none => none

/-- The operation has begun executing (its body ran or is running). -/
def startedB (s : QState) (i : Nat) : Bool :=
  phaseOf s i = .running || phaseOf s i = .doneOk || phaseOf s i = .doneErr

/-- Stepwise side condition of the serialization guarantee: an `enqueue` of a
later operation requires its predecessor to have begun executing, and
queue-wait timeouts and failing operations are excluded. -/
def hypOkB (s : QState) : QEvent → Bool
  | .enqueue 0 => true
  | .enqueue (i + 1) => startedB s i
  | .resumeTimeout _ => false
  | .finishErr _ => false
  | _ => true

/-- Side condition of the serialization guarantee along a trace: no queue-wait
timeout fires, no operation fails, and every operation after the first is
submitted only once its predecessor has begun executing. Checked stepwise
along the run. -/
def admissible (s : QState) : List QEvent → Bool
  | [] => true
  | e :: es =>
    hypOkB s e &&
    (match qstep s e with
     | some s1 => admissible s1 es
     | none => true)

/-- The invariant maintained by admissible queue runs: the tail is the number
of operations that have begun executing, all of which except possibly the
most recent have completed successfully; every submitted operation snapshotted
its own predecessor's promise; and no operation has failed or aborted. -/
def QInv (s : QState) : Prop :=
  s.tail ≤ s.ops.length
  ∧ (∀ i, i < s.ops.length →
      ((phaseOf s i = .running ∨ phaseOf s i = .doneOk) ↔ i < s.tail))
  ∧ (∀ i, i + 1 < s.tail → phaseOf s i = .doneOk)
  ∧ (∀ i, i < s.ops.length → phaseOf s i ≠ .notEnqueued → waitsOnOf s i = some i)
  ∧ (∀ i, phaseOf s i ≠ .doneErr ∧ phaseOf s i ≠ .abortedPrev)

/-! ## Properties of sanitizeFileName -/

lemma splitOnDot_cons_dot (cs : List Char) :
    splitOnDot ('.' :: cs) = [] :: splitOnDot cs := by
  simp [splitOnDot]

lemma splitOnDot_cons_ne {c : Char} (hc : c ≠ '.') {cs : List Char}
    {s : List Char} {ss : List (List Char)} (h : splitOnDot cs = s :: ss) :
    splitOnDot (c :: cs) = (c :: s) :: ss := by
  simp [splitOnDot, hc, h]

lemma splitOnDot_ne_nil (l : List Char) : splitOnDot l ≠ [] := by
  cases l with
  | nil => simp [splitOnDot]
  | cons c cs =>
    by_cases hc : c = '.'
    · subst hc
      rw [splitOnDot_cons_dot]
      simp
    · cases h : splitOnDot cs with
      | nil => exact absurd h (splitOnDot_ne_nil cs)
      | cons s ss =>
        rw [splitOnDot_cons_ne hc h]
        simp

lemma splitOnDot_of_not_mem {l : List Char} (h : '.' ∉ l) : splitOnDot l = [l] := by
  induction l with
  | nil => rfl
  | cons c cs ih =>
    have hc : c ≠ '.' := fun hc => h (hc ▸ List.mem_cons_self c cs)
    have hcs : '.' ∉ cs := fun hm => h (List.mem_cons_of_mem c hm)
    rw [splitOnDot_cons_ne hc (ih hcs)]

lemma splitOnDot_append_dot (b e : List Char) (he : '.' ∉ e) :
    splitOnDot (b ++ '.' :: e) = splitOnDot b ++ [e] := by
  induction b with
  | nil =>
    rw [List.nil_append, splitOnDot_cons_dot, splitOnDot_of_not_mem he]
    rfl
  | cons c cs ih =>
    by_cases hc : c = '.'
    · subst hc
      rw [List.cons_append, splitOnDot_cons_dot, splitOnDot_cons_dot, ih,
        List.cons_append]
    · cases h : splitOnDot cs with
      | nil => exact absurd h (splitOnDot_ne_nil cs)
      | cons s ss =>
        have h2 : splitOnDot (cs ++ '.' :: e) = s :: (ss ++ [e]) := by
          rw [ih, h, List.cons_append]
        rw [List.cons_append, splitOnDot_cons_ne hc h2, splitOnDot_cons_ne hc h,
          List.cons_append]

lemma joinDot_splitOnDot (b : List Char) : joinDot (splitOnDot b) = b := by
  induction b with
  | nil => rfl
  | cons c cs ih =>
    by_cases hc : c = '.'
    · subst hc
      rw [splitOnDot_cons_dot]
      cases h : splitOnDot cs with
      | nil => exact absurd h (splitOnDot_ne_nil cs)
      | cons s ss =>
        rw [h] at ih
        show joinDot ([] :: s :: ss) = '.' :: cs
        rw [show joinDot ([] :: s :: ss) = [] ++ '.' :: joinDot (s :: ss) from rfl]
        rw [List.nil_append, ih]
    · cases h : splitOnDot cs with
      | nil => exact absurd h (splitOnDot_ne_nil cs)
      | cons s ss =>
        rw [h] at ih
        rw [splitOnDot_cons_ne hc h]
        cases ss with
        | nil =>
          show c :: s = c :: cs
          rw [show joinDot [s] = s from rfl] at ih
          rw [ih]
        | cons s2 ss2 =>
          show (c :: s) ++ '.' :: joinDot (s2 :: ss2) = c :: cs
          rw [show joinDot (s :: s2 :: ss2) = s ++ '.' :: joinDot (s2 :: ss2) from rfl] at ih
          rw [List.cons_append, ih]

lemma not_dot_mem_of_mem_splitOnDot {l : List Char} {s : List Char}
    (hs : s ∈ splitOnDot l) : '.' ∉ s := by
  induction l generalizing s with
  | nil =>
    simp only [splitOnDot, List.mem_singleton] at hs
    simp [hs]
  | cons c cs ih =>
    by_cases hc : c = '.'
    · subst hc
      rw [splitOnDot_cons_dot] at hs
      rcases List.mem_cons.mp hs with h | h
      · simp [h]
      · exact ih h
    · cases h : splitOnDot cs with
      | nil => exact absurd h (splitOnDot_ne_nil cs)
      | cons t ts =>
        rw [splitOnDot_cons_ne hc h] at hs
        rcases List.mem_cons.mp hs with rfl | hmem
        · intro hd
          rcases List.mem_cons.mp hd with h1 | h1
          · exact hc h1.symm
          · exact ih (h ▸ List.mem_cons_self t ts) h1
        · exact ih (h ▸ List.mem_cons_of_mem t hmem)

lemma getLastD_mem {α : Type} (l : List α) (d : α) (h : l ≠ []) :
    l.getLastD d ∈ l := by
  rw [List.getLastD_eq_getLast?, List.getLast?_eq_getLast l h]
  simp [List.getLast_mem]

lemma jsTrimChars_eq_nil_iff (l : List Char) :
    jsTrimChars l = [] ↔ ∀ c ∈ l, jsWhitespace c = true := by
  unfold jsTrimChars
  rw [List.reverse_eq_nil_iff, List.dropWhile_eq_nil_iff]
  constructor
  · intro h c hc
    rcases List.mem_append.mp
        ((List.takeWhile_append_dropWhile jsWhitespace l) ▸ hc) with h1 | h1
    · exact List.mem_takeWhile_imp h1
    · exact h c (List.mem_reverse.mpr h1)
  · intro h c hc
    exact h c ((List.dropWhile_sublist jsWhitespace).mem (List.mem_reverse.mp hc))

lemma mem_of_mem_jsTrimChars {l : List Char} {c : Char}
    (hc : c ∈ jsTrimChars l) : c ∈ l := by
  unfold jsTrimChars at hc
  have h1 := (List.dropWhile_sublist jsWhitespace).mem (List.mem_reverse.mp hc)
  exact (List.dropWhile_sublist jsWhitespace).mem (List.mem_reverse.mp h1)

lemma mem_baseClean {x : List Char} {c : Char} (hc : c ∈ baseClean x) :
    illegalChar c = false ∧ controlChar c = false ∧ unsafeChar c = false := by
  unfold baseClean at hc
  split at hc
  · have h4 : c = 'f' ∨ c = 'i' ∨ c = 'l' ∨ c = 'e' := by simpa using hc
    rcases h4 with rfl | rfl | rfl | rfl <;> exact ⟨by decide, by decide, by decide⟩
  · have h4 : c ∈ afterUnsafe x := mem_of_mem_jsTrimChars hc
    unfold afterUnsafe at h4
    have hunsafe := List.of_mem_filter h4
    have h3 : c ∈ afterReserved x := List.mem_of_mem_filter h4
    unfold afterReserved at h3
    have h2 : c ∈ afterFilters x := by
      split at h3
      · cases h3
      · exact h3
    unfold afterFilters at h2
    have hctrl := List.of_mem_filter h2
    have h1 : c ∈ x.filter (fun c => !(illegalChar c)) := List.mem_of_mem_filter h2
    have hill := List.of_mem_filter h1
    refine ⟨?_, ?_, ?_⟩
    · simpa using hill
    · simpa using hctrl
    · simpa using hunsafe

lemma baseClean_ne_nil (x : List Char) : baseClean x ≠ [] := by
  unfold baseClean
  split
  · simp
  · assumption

lemma baseClean_eq_self {b : List Char}
    (hclean : ∀ c ∈ b, illegalChar c = false ∧ controlChar c = false ∧ unsafeChar c = false)
    (htrim : jsTrimChars b = b)
    (hdots : b.all isDot = false) : baseClean b = b := by
  have hb : b ≠ [] := by
    intro h
    subst h
    simp at hdots
  have h1 : afterFilters b = b := by
    unfold afterFilters
    have ha : b.filter (fun c => !(illegalChar c)) = b :=
      List.filter_eq_self.mpr (fun a ha => by simp [(hclean a ha).1])
    rw [ha]
    exact List.filter_eq_self.mpr (fun a ha => by simp [(hclean a ha).2.1])
  have h2 : afterReserved b = b := by
    unfold afterReserved
    rw [h1]
    rw [if_neg]
    intro hcontra
    rw [hcontra.2] at hdots
    cases hdots
  have h3 : afterUnsafe b = b := by
    unfold afterUnsafe
    rw [h2]
    exact List.filter_eq_self.mpr (fun a ha => by simp [(hclean a ha).2.2])
  unfold baseClean
  rw [h3, htrim, if_neg hb]

lemma extOfParts_ne_nil (parts : List (List Char)) : extOfParts parts ≠ [] := by
  simp only [extOfParts]
  split
  · simp
  · assumption

lemma jsTrimChars_dot_append_ne_nil (b e : List Char) :
    jsTrimChars (b ++ '.' :: e) ≠ [] := by
  intro h
  have := (jsTrimChars_eq_nil_iff _).mp h '.' (by simp)
  simp [jsWhitespace] at this

/-- Core shape of a sanitize run on an input with a dot: the extension (the
part after the last dot) passes through completely unfiltered, while only the
base name is cleaned and truncated. -/
lemma sanitize_append_ext (b e : List Char) (he : e ≠ []) (hed : '.' ∉ e) :
    sanitizeChars (b ++ '.' :: e) = (baseClean b).take 200 ++ '.' :: e := by
  simp only [sanitizeChars]
  rw [if_neg (jsTrimChars_dot_append_ne_nil b e)]
  rw [splitOnDot_append_dot b e hed]
  rw [List.dropLast_concat, joinDot_splitOnDot]
  congr 1
  simp only [extOfParts]
  rw [List.getLastD_concat, if_neg he]

/-- Empty extension: an input ending in a dot gets the fallback extension
`bin`. -/
lemma sanitize_empty_ext (b : List Char) :
    sanitizeChars (b ++ ['.']) = (baseClean b).take 200 ++ '.' :: ['b', 'i', 'n'] := by
  simp only [sanitizeChars]
  rw [if_neg (by simpa using jsTrimChars_dot_append_ne_nil b [])]
  rw [show b ++ ['.'] = b ++ '.' :: [] by simp]
  rw [splitOnDot_append_dot b [] (by simp)]
  rw [List.dropLast_concat, joinDot_splitOnDot]
  congr 1
  simp only [extOfParts]
  rw [List.getLastD_concat]
  simp

/-- No dot at all: the entire input becomes the extension and the base name
falls back to `file`. -/
lemma sanitize_no_dot (e : List Char) (hed : '.' ∉ e) (hne : jsTrimChars e ≠ []) :
    sanitizeChars e = ['f', 'i', 'l', 'e'] ++ '.' :: e := by
  have he : e ≠ [] := by
    intro h
    subst h
    simp [jsTrimChars] at hne
  simp only [sanitizeChars]
  rw [if_neg hne, splitOnDot_of_not_mem hed]
  simp only [List.dropLast_single, joinDot]
  rw [show baseClean [] = ['f', 'i', 'l', 'e'] from rfl]
  simp only [List.take_succ_cons, List.take_nil]
  congr 1
  simp only [extOfParts]
  simp [if_neg he]

lemma take_ne_nil_of_ne_nil {l : List Char} (h : l ≠ []) : l.take 200 ≠ [] := by
  cases l with
  | nil => exact absurd rfl h
  | cons c cs => simp [List.take_succ_cons]

/-- Structure of every sanitize output: a nonempty cleaned base of at most 200
characters, a dot, and a nonempty dot-free extension. -/
lemma sanitize_shape (x : List Char) :
    sanitizeChars x = sanitizedBase x ++ '.' :: sanitizedExt x
    ∧ sanitizedBase x ≠ []
    ∧ (sanitizedBase x).length ≤ 200
    ∧ (∀ c ∈ sanitizedBase x,
        illegalChar c = false ∧ controlChar c = false ∧ unsafeChar c = false)
    ∧ sanitizedExt x ≠ []
    ∧ '.' ∉ sanitizedExt x := by
  by_cases h : jsTrimChars x = []
  · have hx : sanitizeChars x = ['f', 'i', 'l', 'e', '.', 'b', 'i', 'n'] := by
      simp only [sanitizeChars]
      rw [if_pos h]
    have hbase : sanitizedBase x = ['f', 'i', 'l', 'e'] := by
      unfold sanitizedBase
      rw [hx]
      decide
    have hext : sanitizedExt x = ['b', 'i', 'n'] := by
      unfold sanitizedExt
      rw [hx]
      decide
    refine ⟨?_, ?_, ?_, ?_, ?_, ?_⟩
    · rw [hx, hbase, hext]
      decide
    · rw [hbase]
      decide
    · rw [hbase]
      decide
    · rw [hbase]
      decide
    · rw [hext]
      decide
    · rw [hext]
      decide
  · have hx : sanitizeChars x =
        (baseClean (joinDot (splitOnDot x).dropLast)).take 200 ++
          '.' :: extOfParts (splitOnDot x) := by
      simp only [sanitizeChars]
      rw [if_neg h]
    have hextd : '.' ∉ extOfParts (splitOnDot x) := by
      simp only [extOfParts]
      split
      · decide
      · exact not_dot_mem_of_mem_splitOnDot
          (getLastD_mem (splitOnDot x) [] (splitOnDot_ne_nil x))
    have hextne : extOfParts (splitOnDot x) ≠ [] := extOfParts_ne_nil _
    have hbase : sanitizedBase x = (baseClean (joinDot (splitOnDot x).dropLast)).take 200 := by
      unfold sanitizedBase
      rw [hx, splitOnDot_append_dot _ _ hextd, List.dropLast_concat, joinDot_splitOnDot]
    have hext : sanitizedExt x = extOfParts (splitOnDot x) := by
      unfold sanitizedExt
      rw [hx, splitOnDot_append_dot _ _ hextd, List.getLastD_concat]
    refine ⟨?_, ?_, ?_, ?_, ?_, ?_⟩
    · rw [hx, hbase, hext]
    · rw [hbase]
      exact take_ne_nil_of_ne_nil (baseClean_ne_nil _)
    · rw [hbase, List.length_take]
      omega
    · rw [hbase]
      intro c hc
      exact mem_baseClean (List.mem_of_mem_take hc)
    · rw [hext]
      exact hextne
    · rw [hext]
      exact hextd

/-- C8 counterexample: `sanitizeFileName` is not idempotent. Sanitizing
`"&.&.ext"` removes the two ampersands, leaving the base name `"."`, so the
output is `"..ext"`; sanitizing that output again triggers the
all-dots reserved-name rule on its base and yields `"file.ext"`. -/
theorem sanitize_not_idempotent :
    sanitizeFileName "&.&.ext" = "..ext"
    ∧ sanitizeFileName (sanitizeFileName "&.&.ext") = "file.ext"
    ∧ sanitizeFileName (sanitizeFileName "&.&.ext") ≠ sanitizeFileName "&.&.ext" := by
  decide

/-- C8 amended: sanitizing is idempotent on every input whose sanitized base
name is trim-stable (no leading/trailing whitespace survives, which the
200-character truncation can otherwise expose) and not composed solely of
dots (which the reserved-name rule would erase on the second pass). -/
theorem sanitize_idempotent_when_base_stable (x : List Char)
    (h1 : jsTrimChars (sanitizedBase x) = sanitizedBase x)
    (h2 : (sanitizedBase x).all isDot = false) :
    sanitizeChars (sanitizeChars x) = sanitizeChars x := by
  obtain ⟨hshape, hne, hlen, hclean, hextne, hextd⟩ := sanitize_shape x
  rw [hshape, sanitize_append_ext _ _ hextne hextd,
    baseClean_eq_self hclean h1 h2, List.take_of_length_le hlen]

/-- Witness for the amended C8 theorem at the spec's own example input. -/
theorem sanitize_idempotent_when_base_stable_witness :
    jsTrimChars (sanitizedBase "data.csv".data) = sanitizedBase "data.csv".data
    ∧ (sanitizedBase "data.csv".data).all isDot = false
    ∧ sanitizeChars (sanitizeChars "data.csv".data) = sanitizeChars "data.csv".data :=
  ⟨by decide, by decide,
    sanitize_idempotent_when_base_stable "data.csv".data (by decide) (by decide)⟩

/-- C10 counterexample: an input without any dot does not receive the generic
`bin` extension; instead the whole input is treated as the extension and the
base name falls back to `file`. -/
theorem sanitize_missing_ext_not_bin :
    sanitizeFileName "noext" = "file.noext"
    ∧ sanitizeFileName "noext" ≠ "noext.bin"
    ∧ sanitizeFileName "noext" ≠ "file.bin" := by
  decide

/-- C10 amended: the extension segment is re-appended verbatim without any
character filtering (first conjunct — `e` is arbitrary, so it may contain
illegal, unsafe or control characters); an *empty* extension (input ending in
a dot) is replaced by `bin` (second conjunct); and an input with no dot at
all has its entire text treated as the extension with base `file` (third
conjunct). -/
theorem sanitize_extension_verbatim :
    (∀ b e : List Char, e ≠ [] → '.' ∉ e →
        sanitizeChars (b ++ '.' :: e) = (baseClean b).take 200 ++ '.' :: e)
    ∧ (∀ b : List Char,
        sanitizeChars (b ++ ['.']) = (baseClean b).take 200 ++ '.' :: ['b', 'i', 'n'])
    ∧ (∀ e : List Char, '.' ∉ e → jsTrimChars e ≠ [] →
        sanitizeChars e = ['f', 'i', 'l', 'e'] ++ '.' :: e) :=
  ⟨sanitize_append_ext, sanitize_empty_ext, sanitize_no_dot⟩

/-- Witness for the amended C10 theorem: the extension `c&sv` keeps its
unsafe ampersand verbatim. -/
theorem sanitize_extension_verbatim_witness :
    (['c', '&', 's', 'v'] ≠ ([] : List Char))
    ∧ '.' ∉ ['c', '&', 's', 'v']
    ∧ sanitizeChars ("doc".data ++ '.' :: ['c', '&', 's', 'v']) =
        (baseClean "doc".data).take 200 ++ '.' :: ['c', '&', 's', 'v'] :=
  ⟨by decide, by decide,
    sanitize_extension_verbatim.1 "doc".data ['c', '&', 's', 'v'] (by decide) (by decide)⟩

/-! ## Properties of convertDocument -/

/-- C5 counterexample: on an input whose detected extension is not in the
supported map, `convertDocument` does fail with the unsupported-format error,
but only *after* awaiting engine initialization: the effect log of the run is
exactly `[initEngine]`, so an engine bootstrap is triggered by the request,
contradicting the claim that no engine initialization happens. -/
theorem unsupported_format_initializes_engine :
    convertDocument envAllOk ⟨"a.xyz", [], [1]⟩ =
      (.error (.unsupportedFormat "xyz"), [.initEngine])
    ∧ Effect.initEngine ∈ (convertDocument envAllOk ⟨"a.xyz", [], [1]⟩).2 := by
  decide

/-- C5 amended: when initialization succeeds and the detected extension is not
in the supported map, `convertDocument` fails with the unsupported-format
error and its only engine interaction is the already-awaited initialization:
no filesystem write, no engine invocation and no fallback-library load occur
(the effect log is exactly `[initEngine]`). -/
theorem unsupported_format_no_write_no_invoke (env : EngineEnv) (file : X2TFile)
    (hinit : env.initOk = true)
    (hext : List.lookup (jsToLower (detectedExtension file)) DOCUMENT_TYPE_MAP = none) :
    convertDocument env file =
      (.error (.unsupportedFormat (detectedExtension file)), [.initEngine]) := by
  simp [convertDocument, getDocumentType, hinit, hext]

/-- Witness for the amended C5 theorem. -/
theorem unsupported_format_no_write_no_invoke_witness :
    envAllOk.initOk = true
    ∧ List.lookup (jsToLower (detectedExtension ⟨"a.xyz", [], [1]⟩)) DOCUMENT_TYPE_MAP = none
    ∧ convertDocument envAllOk ⟨"a.xyz", [], [1]⟩ =
        (.error (.unsupportedFormat (detectedExtension ⟨"a.xyz", [], [1]⟩)), [.initEngine]) :=
  ⟨by decide, by decide,
    unsupported_format_no_write_no_invoke envAllOk ⟨"a.xyz", [], [1]⟩ (by decide) (by decide)⟩

/-- C6 counterexample: a successfully converted CSV file whose requested name
contains a character the sanitizer strips does not carry the original
requested file name; it carries the sanitized one. -/
theorem csv_result_name_sanitized_not_original :
    (convertDocument envAllOk ⟨"da&ta.csv", [], [97]⟩).1 =
      .ok ⟨"data.csv", .cell, [9], []⟩
    ∧ "data.csv" ≠ "da&ta.csv" := by
  decide

/-- C6 amended: every successfully converted CSV file yields a result whose
`fileName` is the *sanitized original* requested name (equal to the original
whenever the original is already sanitary, and never the intermediate `.xlsx`
name) with `type == cell`, even though the engine was fed the renamed
intermediate spreadsheet. -/
theorem csv_success_returns_sanitized_original_name (env : EngineEnv) (file : X2TFile)
    (hinit : env.initOk = true)
    (hcsv : jsToLower (detectedExtension file) = "csv")
    (hdata : file.bytes ≠ [])
    (hlib : env.xlsxLibOk = true)
    (hparse : env.xlsxParseOk = true)
    (hret : env.invokeRet = 0) :
    (convertDocument env file).1 =
      .ok ⟨sanitizeFileName file.name, .cell, env.outputBin, (readMediaFiles env).1⟩ := by
  have hlook : List.lookup "csv" DOCUMENT_TYPE_MAP = some DocumentType.cell := by decide
  have hlen : file.bytes.length ≠ 0 := by
    simpa [List.length_eq_zero] using hdata
  simp [convertDocument, getDocumentType, convertCsvToXlsx, hinit, hcsv, hlook,
    hlib, hparse, hret, hlen]

/-- Witness for the amended C6 theorem at the spec's end-to-end example. -/
theorem csv_success_returns_sanitized_original_name_witness :
    envAllOk.initOk = true
    ∧ jsToLower (detectedExtension ⟨"data.csv", [], [97, 44, 98, 10, 49, 44, 50, 10]⟩) = "csv"
    ∧ (⟨"data.csv", [], [97, 44, 98, 10, 49, 44, 50, 10]⟩ : X2TFile).bytes ≠ []
    ∧ envAllOk.xlsxLibOk = true
    ∧ envAllOk.xlsxParseOk = true
    ∧ envAllOk.invokeRet = 0
    ∧ (convertDocument envAllOk ⟨"data.csv", [], [97, 44, 98, 10, 49, 44, 50, 10]⟩).1 =
        .ok ⟨sanitizeFileName "data.csv", .cell, envAllOk.outputBin,
          (readMediaFiles envAllOk).1⟩ :=
  ⟨by decide, by decide, by decide, by decide, by decide, by decide,
    csv_success_returns_sanitized_original_name envAllOk
      ⟨"data.csv", [], [97, 44, 98, 10, 49, 44, 50, 10]⟩
      (by decide) (by decide) (by decide) (by decide) (by decide) (by decide)⟩

/-- C9 confirmed: a CSV-extension request with empty byte content always fails
(whatever the environment does), and the run neither loads the fallback
spreadsheet library nor invokes the engine's conversion entry point. -/
theorem empty_csv_fails_fast (env : EngineEnv) (file : X2TFile)
    (hcsv : jsToLower (detectedExtension file) = "csv")
    (hempty : file.bytes = []) :
    (∃ e, (convertDocument env file).1 = .error e)
    ∧ Effect.loadXlsxLib ∉ (convertDocument env file).2
    ∧ ∀ p, Effect.engineInvoke p ∉ (convertDocument env file).2 := by
  have hlook : List.lookup "csv" DOCUMENT_TYPE_MAP = some DocumentType.cell := by decide
  cases hinit : env.initOk with
  | false =>
    simp [convertDocument, hinit]
  | true =>
    simp [convertDocument, getDocumentType, hinit, hcsv, hlook, hempty]

/-- Witness for the C9 theorem. -/
theorem empty_csv_fails_fast_witness :
    jsToLower (detectedExtension ⟨"e.csv", [], []⟩) = "csv"
    ∧ (⟨"e.csv", [], []⟩ : X2TFile).bytes = []
    ∧ ((∃ e, (convertDocument envAllOk ⟨"e.csv", [], []⟩).1 = .error e)
        ∧ Effect.loadXlsxLib ∉ (convertDocument envAllOk ⟨"e.csv", [], []⟩).2
        ∧ ∀ p, Effect.engineInvoke p ∉ (convertDocument envAllOk ⟨"e.csv", [], []⟩).2) :=
  ⟨by decide, by decide,
    empty_csv_fails_fast envAllOk ⟨"e.csv", [], []⟩ (by decide) (by decide)⟩

/-! ## Properties of engine initialization -/

lemma runInit_append (s : InitState) (es1 es2 : List InitEvent) :
    runInit s (es1 ++ es2) =
      ((runInit (runInit s es1).1 es2).1,
        (runInit s es1).2 ++ (runInit (runInit s es1).1 es2).2) := by
  induction es1 generalizing s with
  | nil => simp [runInit]
  | cons e es ih =>
    simp only [List.cons_append, runInit, List.append_eq]
    rw [ih]
    simp [List.append_assoc]

lemma runInit_calls_pending (s : InitState) (p : Nat)
    (hR : s.isReady = false) (hP : s.initPromise = some p) (k : Nat) :
    runInit s (List.replicate k .call) = (s, List.replicate k (.promise p)) := by
  induction k with
  | zero => simp [runInit]
  | succ n ih =>
    have hstep : initStep s .call = (s, some (.promise p)) := by
      simp [initStep, initCall, hR, hP]
    rw [List.replicate_succ]
    simp only [runInit]
    rw [hstep]
    rw [ih]
    simp [List.replicate_succ]

lemma runInit_calls_ready (s : InitState) (h : Nat)
    (hR : s.isReady = true) (hM : s.x2tModule = some h) (k : Nat) :
    runInit s (List.replicate k .call) = (s, List.replicate k (.cachedHandle h)) := by
  induction k with
  | zero => simp [runInit]
  | succ n ih =>
    have hstep : initStep s .call = (s, some (.cachedHandle h)) := by
      simp [initStep, initCall, hR, hM]
    rw [List.replicate_succ]
    simp only [runInit]
    rw [hstep]
    rw [ih]
    simp [List.replicate_succ]

/-- C1 confirmed: starting from a fresh converter, N `initialize()` calls made
while the bootstrap is in flight start exactly one bootstrap
(`bootstrapCount = 1`) and all N callers receive the same promise (id 0); when
the runtime then signals readiness with module `moduleHandle`, that shared
promise resolves to `moduleHandle` (so every caller gets the same handle), and
any M later `initialize()` calls return the cached handle directly, still
without a second bootstrap. -/
theorem initialize_single_flight (N M moduleHandle : Nat) (hN : 1 ≤ N) :
    (runInit initState (List.replicate N .call)).2 = List.replicate N (.promise 0)
    ∧ (runInit initState (List.replicate N .call ++
        ([.scriptOk moduleHandle, .runtimeReady] ++ List.replicate M .call))).1.bootstrapCount = 1
    ∧ promStatusOf (runInit initState (List.replicate N .call ++
        ([.scriptOk moduleHandle, .runtimeReady] ++ List.replicate M .call))).1 0 =
        .resolvedWith moduleHandle
    ∧ (runInit initState (List.replicate N .call ++
        ([.scriptOk moduleHandle, .runtimeReady] ++ List.replicate M .call))).2 =
        List.replicate N (.promise 0) ++ List.replicate M (.cachedHandle moduleHandle) := by
  obtain ⟨n, rfl⟩ : ∃ n, N = n + 1 := ⟨N - 1, by omega⟩
  have hstep : initStep initState .call =
      (⟨false, none, some 0, false, 1, [.pending], .loadingScript 0⟩,
        some (.promise 0)) := by
    simp [initStep, initCall, initState]
  have h1 : runInit initState (List.replicate (n + 1) .call) =
      (⟨false, none, some 0, false, 1, [.pending], .loadingScript 0⟩,
        List.replicate (n + 1) (.promise 0)) := by
    rw [List.replicate_succ]
    simp only [runInit]
    rw [hstep]
    rw [runInit_calls_pending _ 0 rfl rfl n]
    simp [List.replicate_succ]
  have hmid : runInit
      (⟨false, none, some 0, false, 1, [.pending], .loadingScript 0⟩ : InitState)
      [.scriptOk moduleHandle, .runtimeReady] =
      (⟨true, some moduleHandle, some 0, true, 1,
        [.resolvedWith moduleHandle], .idle⟩, []) := by
    simp [runInit, initStep, settleProm]
  have hend := runInit_calls_ready
    (⟨true, some moduleHandle, some 0, true, 1,
      [.resolvedWith moduleHandle], .idle⟩ : InitState) moduleHandle rfl rfl M
  have hmid2 : runInit
      (⟨false, none, some 0, false, 1, [.pending], .loadingScript 0⟩ : InitState)
      ([.scriptOk moduleHandle, .runtimeReady] ++ List.replicate M .call) =
      (⟨true, some moduleHandle, some 0, true, 1,
        [.resolvedWith moduleHandle], .idle⟩,
        List.replicate M (.cachedHandle moduleHandle)) := by
    rw [runInit_append, hmid]
    simp only
    rw [hend]
    simp
  have hfull : runInit initState (List.replicate (n + 1) .call ++
      ([.scriptOk moduleHandle, .runtimeReady] ++ List.replicate M .call)) =
      (⟨true, some moduleHandle, some 0, true, 1,
        [.resolvedWith moduleHandle], .idle⟩,
        List.replicate (n + 1) (.promise 0) ++
          List.replicate M (.cachedHandle moduleHandle)) := by
    rw [runInit_append, h1]
    simp only
    rw [hmid2]
  refine ⟨?_, ?_, ?_, ?_⟩
  · rw [h1]
  · rw [hfull]
  · rw [hfull]
    simp [promStatusOf]
  · rw [hfull]

/-- Witness for the C1 theorem at N = 3, M = 2, moduleHandle = 7. -/
theorem initialize_single_flight_witness :
    1 ≤ 3
    ∧ ((runInit initState (List.replicate 3 .call)).2 = List.replicate 3 (.promise 0)
      ∧ (runInit initState (List.replicate 3 .call ++
          ([.scriptOk 7, .runtimeReady] ++ List.replicate 2 .call))).1.bootstrapCount = 1
      ∧ promStatusOf (runInit initState (List.replicate 3 .call ++
          ([.scriptOk 7, .runtimeReady] ++ List.replicate 2 .call))).1 0 = .resolvedWith 7
      ∧ (runInit initState (List.replicate 3 .call ++
          ([.scriptOk 7, .runtimeReady] ++ List.replicate 2 .call))).2 =
          List.replicate 3 (.promise 0) ++ List.replicate 2 (.cachedHandle 7)) :=
  ⟨by decide, initialize_single_flight 3 2 7 (by decide)⟩

/-- C2 is a code bug: after the script loads but the runtime-ready signal does
not arrive before the timeout, the first caller's promise is indeed rejected
with the initialization-timeout error (first conjunct, the claim's first
half), but because `doInitialize` returns the inner promise from inside its
`try` block without awaiting it, the rejection bypasses the `catch` that
performs `this.initPromise = null`: the pending-initialization promise
survives (third conjunct), and a subsequent `initialize()` call receives the
same already-rejected promise with no fresh bootstrap attempt (fourth and
fifth conjuncts), contradicting the claim's second half. -/
theorem initialize_timeout_leaves_state :
    promStatusOf (runInit initState [.call, .scriptOk 5, .timeoutFire]).1 0 =
      .rejectedWith initTimeoutMessage
    ∧ (runInit initState [.call, .scriptOk 5, .timeoutFire]).1.isReady = false
    ∧ (runInit initState [.call, .scriptOk 5, .timeoutFire]).1.initPromise = some 0
    ∧ (runInit (runInit initState [.call, .scriptOk 5, .timeoutFire]).1 [.call]).2 =
        [.promise 0]
    ∧ (runInit (runInit initState [.call, .scriptOk 5, .timeoutFire]).1
        [.call]).1.bootstrapCount = 1 := by
  decide

/-! ## Properties of the editor settling delays -/

/-- C7 counterexample: replacing a *live presentation* session with a
word-processing request applies the intermediate tier (250), not the longer
presentation tier (400) — the code selects the tier from the incoming
request's file type, never from the live session's type. -/
theorem replace_live_presentation_gets_intermediate_tier :
    createEditorDelays (some ⟨"pptx"⟩) "docx" = [250, 250]
    ∧ (250 : Nat) ≠ 400 := by
  decide

/-- C7 amended: the settling-delay tier is selected by the *requested* file
type only — a replacement applies the 400 tier exactly when the incoming
request is presentation-type (independently of the live session's type), 250
otherwise, and a fresh create with no prior session applies 150. -/
theorem settle_tier_depends_on_requested_type (live : LiveSession) (fileType : String) :
    createEditorDelays (some live) fileType =
      (if isPresentationFileType fileType then [400, 400] else [250, 250])
    ∧ createEditorDelays none fileType = [150] := by
  constructor
  · by_cases h : isPresentationFileType fileType = true
    · simp [createEditorDelays, editorSettleDelay, h]
    · simp only [Bool.not_eq_true] at h
      simp [createEditorDelays, editorSettleDelay, h]
  · simp [createEditorDelays, editorSettleDelay]

/-! ## Properties of the editor operation queue -/

lemma phaseAt_of_getElem? {ops : List QOp} {i : Nat} {op : QOp}
    (h : ops[i]? = some op) : phaseAt ops i = op.phase := by
  simp [phaseAt, h]

lemma waitsAt_of_getElem? {ops : List QOp} {i : Nat} {op : QOp}
    (h : ops[i]? = some op) : waitsAt ops i = op.waitsOn := by
  simp [waitsAt, h]

lemma phaseAt_set_self {ops : List QOp} {i : Nat} (op : QOp) (h : i < ops.length) :
    phaseAt (ops.set i op) i = op.phase := by
  simp [phaseAt, List.getElem?_set_self h]

lemma phaseAt_set_ne {ops : List QOp} {i j : Nat} (op : QOp) (h : i ≠ j) :
    phaseAt (ops.set i op) j = phaseAt ops j := by
  simp [phaseAt, List.getElem?_set_ne h]

lemma waitsAt_set_self {ops : List QOp} {i : Nat} (op : QOp) (h : i < ops.length) :
    waitsAt (ops.set i op) i = op.waitsOn := by
  simp [waitsAt, List.getElem?_set_self h]

lemma waitsAt_set_ne {ops : List QOp} {i j : Nat} (op : QOp) (h : i ≠ j) :
    waitsAt (ops.set i op) j = waitsAt ops j := by
  simp [waitsAt, List.getElem?_set_ne h]

lemma lt_length_of_phaseOf_ne {s : QState} {i : Nat}
    (h : phaseOf s i ≠ .notEnqueued) : i < s.ops.length := by
  by_contra hcon
  apply h
  simp [phaseOf, phaseAt, List.getElem?_eq_none (Nat.le_of_not_lt hcon)]

lemma startedB_iff {s : QState} {i : Nat} :
    startedB s i = true ↔
      (phaseOf s i = .running ∨ phaseOf s i = .doneOk ∨ phaseOf s i = .doneErr) := by
  simp [startedB, or_assoc]

lemma phaseOf_def (s : QState) (i : Nat) : phaseOf s i = phaseAt s.ops i := rfl

lemma waitsOnOf_def (s : QState) (i : Nat) : waitsOnOf s i = waitsAt s.ops i := rfl

lemma phaseAt_set_phase {ops : List QOp} {i : Nat} (w : Option Nat) (p : OpPhase)
    (h : i < ops.length) : phaseAt (ops.set i ⟨w, p⟩) i = p :=
  phaseAt_set_self ⟨w, p⟩ h

lemma waitsAt_set_waits {ops : List QOp} {i : Nat} (w : Option Nat) (p : OpPhase)
    (h : i < ops.length) : waitsAt (ops.set i ⟨w, p⟩) i = w :=
  waitsAt_set_self ⟨w, p⟩ h

lemma qstep_preserves {s s' : QState} {e : QEvent}
    (hInv : QInv s) (hHyp : hypOkB s e = true) (hStep : qstep s e = some s') :
    QInv s' := by
  obtain ⟨hLen, hIff, hBelow, hWaits, hNoErr⟩ := hInv
  cases e with
  | enqueue i =>
    cases hop : s.ops[i]? with
    | none => simp [qstep, hop] at hStep
    | some op =>
      simp only [qstep, hop] at hStep
      split at hStep
      case isFalse => cases hStep
      case isTrue hcond =>
        have hEq := Option.some.inj hStep
        have hTail : s'.tail = s.tail := by rw [← hEq]
        have hOps : s'.ops = s.ops.set i ⟨some s.tail, .waiting⟩ := by rw [← hEq]
        have hiLen : i < s.ops.length := by
          by_contra hcon
          rw [List.getElem?_eq_none (Nat.le_of_not_lt hcon)] at hop
          cases hop
        have hphase_i : phaseOf s i = .notEnqueued :=
          (phaseAt_of_getElem? hop).trans hcond.1
        have htail_le : s.tail ≤ i := by
          by_contra hcon
          have hrd := (hIff i hiLen).mpr (Nat.lt_of_not_le hcon)
          rcases hrd with h | h <;> rw [hphase_i] at h <;> cases h
        have htail_ge : i ≤ s.tail := by
          cases i with
          | zero => exact Nat.zero_le _
          | succ k =>
            have hst : startedB s k = true := by simpa [hypOkB] using hHyp
            have hk := startedB_iff.mp hst
            have hk2 : phaseOf s k = .running ∨ phaseOf s k = .doneOk := by
              rcases hk with h | h | h
              · exact Or.inl h
              · exact Or.inr h
              · exact absurd h (hNoErr k).1
            have hkLen : k < s.ops.length := by
              apply lt_length_of_phaseOf_ne
              rcases hk2 with h | h <;> rw [h] <;> decide
            have := (hIff k hkLen).mp hk2
            omega
        have htail : s.tail = i := Nat.le_antisymm htail_le htail_ge
        refine ⟨?_, ?_, ?_, ?_, ?_⟩
        · rw [hTail, hOps, List.length_set]
          exact hLen
        · intro j hj
          rw [hOps, List.length_set] at hj
          rw [phaseOf_def, hOps, hTail]
          by_cases hji : j = i
          · subst hji
            rw [phaseAt_set_phase _ _ hiLen]
            constructor
            · rintro (h | h) <;> cases h
            · intro h
              rw [htail] at h
              exact absurd h (lt_irrefl j)
          · rw [phaseAt_set_ne _ (fun h => hji h.symm)]
            exact hIff j hj
        · intro j hj
          rw [hTail] at hj
          have hji : j ≠ i := by omega
          rw [phaseOf_def, hOps, phaseAt_set_ne _ (fun h => hji h.symm)]
          exact hBelow j hj
        · intro j hjLen hjph
          rw [hOps, List.length_set] at hjLen
          rw [waitsOnOf_def, hOps]
          by_cases hji : j = i
          · subst hji
            rw [waitsAt_set_waits _ _ hiLen, htail]
          · rw [waitsAt_set_ne _ (fun h => hji h.symm)]
            rw [phaseOf_def, hOps, phaseAt_set_ne _ (fun h => hji h.symm)] at hjph
            exact hWaits j hjLen hjph
        · intro j
          by_cases hji : j = i
          · subst hji
            rw [phaseOf_def, hOps, phaseAt_set_phase _ _ hiLen]
            exact ⟨by decide, by decide⟩
          · rw [phaseOf_def, hOps, phaseAt_set_ne _ (fun h => hji h.symm)]
            exact hNoErr j
  | resume i =>
    cases hop : s.ops[i]? with
    | none => simp [qstep, hop] at hStep
    | some op =>
      simp only [qstep, hop] at hStep
      split at hStep
      case isFalse => cases hStep
      case isTrue hcond =>
        have hEq := Option.some.inj hStep
        have hTail : s'.tail = i + 1 := by rw [← hEq]
        have hOps : s'.ops = s.ops.set i { op with phase := .running } := by rw [← hEq]
        have hiLen : i < s.ops.length := by
          by_contra hcon
          rw [List.getElem?_eq_none (Nat.le_of_not_lt hcon)] at hop
          cases hop
        have hphase_i : phaseOf s i = .waiting :=
          (phaseAt_of_getElem? hop).trans hcond.1
        have hwaits_i : waitsOnOf s i = some i := by
          apply hWaits i hiLen
          rw [hphase_i]
          decide
        have hwop : op.waitsOn = some i := by
          rw [← waitsAt_of_getElem? hop]
          exact hwaits_i
        have hres : resolvedB s (some i) = true := by
          rw [← hwop]
          exact hcond.2
        have htail_le : s.tail ≤ i := by
          by_contra hcon
          have hrd := (hIff i hiLen).mpr (Nat.lt_of_not_le hcon)
          rcases hrd with h | h <;> rw [hphase_i] at h <;> cases h
        have htail_ge : i ≤ s.tail := by
          cases i with
          | zero => exact Nat.zero_le _
          | succ k =>
            have hk : phaseOf s k = .doneOk := by simpa [resolvedB] using hres
            have hkLen : k < s.ops.length := by
              apply lt_length_of_phaseOf_ne
              rw [hk]
              decide
            have := (hIff k hkLen).mp (Or.inr hk)
            omega
        have htail : s.tail = i := Nat.le_antisymm htail_le htail_ge
        refine ⟨?_, ?_, ?_, ?_, ?_⟩
        · rw [hTail, hOps, List.length_set]
          exact hiLen
        · intro j hj
          rw [hOps, List.length_set] at hj
          rw [phaseOf_def, hOps, hTail]
          by_cases hji : j = i
          · subst hji
            rw [phaseAt_set_phase _ _ hiLen]
            constructor
            · intro _
              omega
            · intro _
              exact Or.inl rfl
          · rw [phaseAt_set_ne _ (fun h => hji h.symm)]
            have hold := hIff j hj
            constructor
            · intro h2
              have h3 := hold.mp h2
              omega
            · intro h2
              exact hold.mpr (by omega)
        · intro j hj
          rw [hTail] at hj
          have hji : j ≠ i := by omega
          rw [phaseOf_def, hOps, phaseAt_set_ne _ (fun h => hji h.symm)]
          rcases Nat.lt_or_ge (j + 1) i with hlt | hge
          · exact hBelow j (by omega)
          · have hji2 : j + 1 = i := by omega
            cases i with
            | zero => omega
            | succ k =>
              have hk : phaseOf s k = .doneOk := by simpa [resolvedB] using hres
              have hjk : j = k := by omega
              rw [hjk]
              exact hk
        · intro j hjLen hjph
          rw [hOps, List.length_set] at hjLen
          rw [waitsOnOf_def, hOps]
          by_cases hji : j = i
          · subst hji
            rw [waitsAt_set_waits _ _ hiLen]
            exact hwop
          · rw [waitsAt_set_ne _ (fun h => hji h.symm)]
            rw [phaseOf_def, hOps, phaseAt_set_ne _ (fun h => hji h.symm)] at hjph
            exact hWaits j hjLen hjph
        · intro j
          by_cases hji : j = i
          · subst hji
            rw [phaseOf_def, hOps, phaseAt_set_phase _ _ hiLen]
            exact ⟨by decide, by decide⟩
          · rw [phaseOf_def, hOps, phaseAt_set_ne _ (fun h => hji h.symm)]
            exact hNoErr j
  | resumeTimeout i => simp [hypOkB] at hHyp
  | abort i =>
    cases hop : s.ops[i]? with
    | none => simp [qstep, hop] at hStep
    | some op =>
      simp only [qstep, hop] at hStep
      split at hStep
      case isFalse => cases hStep
      case isTrue hcond =>
        exfalso
        have h2 := hcond.2
        cases how : op.waitsOn with
        | none => rw [how] at h2; simp [rejectedB] at h2
        | some w =>
          cases w with
          | zero => rw [how] at h2; simp [rejectedB] at h2
          | succ v =>
            rw [how] at h2
            simp only [rejectedB, decide_eq_true_eq] at h2
            exact absurd h2 (hNoErr v).1
  | finishOk i =>
    cases hop : s.ops[i]? with
    | none => simp [qstep, hop] at hStep
    | some op =>
      simp only [qstep, hop] at hStep
      split at hStep
      case isFalse => cases hStep
      case isTrue hcond =>
        have hEq := Option.some.inj hStep
        have hTail : s'.tail = s.tail := by rw [← hEq]
        have hOps : s'.ops = s.ops.set i { op with phase := .doneOk } := by rw [← hEq]
        have hiLen : i < s.ops.length := by
          by_contra hcon
          rw [List.getElem?_eq_none (Nat.le_of_not_lt hcon)] at hop
          cases hop
        have hphase_i : phaseOf s i = .running :=
          (phaseAt_of_getElem? hop).trans hcond
        have hitail : i < s.tail := (hIff i hiLen).mp (Or.inl hphase_i)
        refine ⟨?_, ?_, ?_, ?_, ?_⟩
        · rw [hTail, hOps, List.length_set]
          exact hLen
        · intro j hj
          rw [hOps, List.length_set] at hj
          rw [phaseOf_def, hOps, hTail]
          by_cases hji : j = i
          · subst hji
            rw [phaseAt_set_phase _ _ hiLen]
            constructor
            · intro _
              exact hitail
            · intro _
              exact Or.inr rfl
          · rw [phaseAt_set_ne _ (fun h => hji h.symm)]
            exact hIff j hj
        · intro j hj
          rw [hTail] at hj
          by_cases hji : j = i
          · subst hji
            rw [phaseOf_def, hOps, phaseAt_set_phase _ _ hiLen]
          · rw [phaseOf_def, hOps, phaseAt_set_ne _ (fun h => hji h.symm)]
            exact hBelow j hj
        · intro j hjLen hjph
          rw [hOps, List.length_set] at hjLen
          rw [waitsOnOf_def, hOps]
          by_cases hji : j = i
          · subst hji
            rw [waitsAt_set_waits _ _ hiLen]
            rw [← waitsAt_of_getElem? hop]
            apply hWaits j hjLen
            rw [hphase_i]
            decide
          · rw [waitsAt_set_ne _ (fun h => hji h.symm)]
            rw [phaseOf_def, hOps, phaseAt_set_ne _ (fun h => hji h.symm)] at hjph
            exact hWaits j hjLen hjph
        · intro j
          by_cases hji : j = i
          · subst hji
            rw [phaseOf_def, hOps, phaseAt_set_phase _ _ hiLen]
            exact ⟨by decide, by decide⟩
          · rw [phaseOf_def, hOps, phaseAt_set_ne _ (fun h => hji h.symm)]
            exact hNoErr j
  | finishErr i => simp [hypOkB] at hHyp

lemma qInv_init (K : Nat) : QInv (qInit K) := by
  have hph : ∀ i, phaseOf (qInit K) i = .notEnqueued := by
    intro i
    by_cases h : i < K
    · simp [qInit, phaseOf, phaseAt, List.getElem?_replicate, h]
    · simp [qInit, phaseOf, phaseAt, List.getElem?_replicate, h]
  refine ⟨?_, ?_, ?_, ?_, ?_⟩
  · simp [qInit]
  · intro i _
    rw [hph i]
    constructor
    · rintro (h | h) <;> cases h
    · intro h
      simp [qInit] at h
  · intro i hi
    simp [qInit] at hi
  · intro i _ hne
    exact absurd (hph i) hne
  · intro i
    rw [hph i]
    exact ⟨by decide, by decide⟩

lemma runQueue_inv (es : List QEvent) : ∀ (s s' : QState), QInv s →
    admissible s es = true → runQueue s es = some s' → QInv s' := by
  induction es with
  | nil =>
    intro s s' hI _ hR
    simp only [runQueue, Option.some.injEq] at hR
    rwa [← hR]
  | cons e es ih =>
    intro s s' hI hA hR
    simp only [runQueue] at hR
    cases hq : qstep s e with
    | none => rw [hq] at hR; cases hR
    | some s1 =>
      rw [hq] at hR
      simp only [admissible, hq, Bool.and_eq_true] at hA
      exact ih s1 s' (qstep_preserves hI hA.1 hq) hA.2 hR

/-- C3 counterexample: two operations submitted in the same synchronous block
both snapshot the still-resolved initial queue promise, so after both awaited
races resolve, operation 1 begins running while operation 0 is still running
— B begins before A has completed — even though no queue-wait timeout fires
and both operations subsequently complete (second conjunct: the continuation
finishing both operations is a valid run). This is the schedule the JavaScript
event loop actually produces for two back-to-back `queueEditorOperation`
calls, since the queue variable is only reassigned *after* the race is
awaited. -/
theorem queue_same_tick_enqueues_interleave :
    (runQueue (qInit 2) [.enqueue 0, .enqueue 1, .resume 0, .resume 1]).map
      (fun s => (phaseOf s 0, phaseOf s 1)) = some (.running, .running)
    ∧ (runQueue (qInit 2) [.enqueue 0, .enqueue 1, .resume 0, .resume 1,
        .finishOk 0, .finishOk 1]).isSome = true := by
  decide

/-- C3 amended: the queue is a strict FIFO serializer *provided* each
operation is enqueued only after its predecessor has begun executing (so its
snapshot of the queue variable is its predecessor's completion promise):
along any such run with no queue-wait timeout and no failing operation, an
operation has begun executing only if its predecessor has already completed.
Since every prefix of such a run is itself such a run, this is the temporal
statement that operation i+1 does not start until operation i has finished. -/
theorem queue_fifo_when_sequenced (K : Nat) (es : List QEvent) (s : QState) (i : Nat)
    (hadm : admissible (qInit K) es = true)
    (hrun : runQueue (qInit K) es = some s)
    (hstart : startedB s (i + 1) = true) :
    phaseOf s i = .doneOk := by
  obtain ⟨hLen, hIff, hBelow, hWaits, hNoErr⟩ :=
    runQueue_inv es (qInit K) s (qInv_init K) hadm hrun
  have hph : phaseOf s (i + 1) = .running ∨ phaseOf s (i + 1) = .doneOk := by
    rcases startedB_iff.mp hstart with h | h | h
    · exact Or.inl h
    · exact Or.inr h
    · exact absurd h (hNoErr (i + 1)).1
  have hlen1 : i + 1 < s.ops.length := by
    apply lt_length_of_phaseOf_ne
    rcases hph with h | h <;> rw [h] <;> decide
  exact hBelow i ((hIff (i + 1) hlen1).mp hph)

/-- Witness for the amended C3 theorem: a sequenced two-operation run. -/
theorem queue_fifo_when_sequenced_witness :
    admissible (qInit 2) [.enqueue 0, .resume 0, .finishOk 0,
      .enqueue 1, .resume 1] = true
    ∧ runQueue (qInit 2) [.enqueue 0, .resume 0, .finishOk 0,
        .enqueue 1, .resume 1] =
        some ⟨2, [⟨some 0, .doneOk⟩, ⟨some 1, .running⟩]⟩
    ∧ startedB (⟨2, [⟨some 0, .doneOk⟩, ⟨some 1, .running⟩]⟩ : QState) 1 = true
    ∧ phaseOf (⟨2, [⟨some 0, .doneOk⟩, ⟨some 1, .running⟩]⟩ : QState) 0 = .doneOk :=
  ⟨by decide, by decide, by decide,
    queue_fifo_when_sequenced 2
      [.enqueue 0, .resume 0, .finishOk 0, .enqueue 1, .resume 1]
      ⟨2, [⟨some 0, .doneOk⟩, ⟨some 1, .running⟩]⟩ 0
      (by decide) (by decide) (by decide)⟩

/-- C4 is a code bug: once operation 0 has failed, the queue promise it
installed is rejected, and every subsequently enqueued operation's
`Promise.race` rejects immediately with that same error, which the `catch`
re-throws (only the timeout message is swallowed). Operations 1 and 2 abort
with operation 0's error without ever running their bodies — and since an
aborting call never installs its own promise, the rejected tail persists and
the queue is poisoned permanently, not just for one successor. -/
theorem queue_poisoned_after_failure :
    (runQueue (qInit 3) [.enqueue 0, .resume 0, .finishErr 0,
        .enqueue 1, .abort 1, .enqueue 2, .abort 2]).map
      (fun s => (phaseOf s 0, phaseOf s 1, phaseOf s 2)) =
      some (.doneErr, .abortedPrev, .abortedPrev) := by
  decide

end X2T

